import Mathlib

/-!
Verification of the Markowitz Monte Carlo portfolio optimizer
(`optimizer.py`, `data_fetcher.py`).

The selector `find_optimal_portfolios` operates on numpy float arrays whose
entries may be non-finite (a zero-volatility candidate yields an infinite or
NaN Sharpe ratio), so floats are modelled by the type `FP`: a finite value
(idealised as a rational), one of the two infinities, or NaN, with numpy's
argmax/argmin scanning kernels modelled faithfully (IEEE comparisons are
false on NaN; the kernels check `isnan` explicitly and stop at the first
NaN, which therefore wins the selection).

The arithmetic pipeline (`calculate_portfolio_metrics`,
`run_monte_carlo_simulation`, `optimize_portfolio`,
`calculate_annual_metrics`) is modelled over the reals, with the calls to
`np.random.random` made explicit as a stream of drawn values.
-/

set_option maxHeartbeats 1000000
set_option linter.unusedVariables false
set_option linter.unreachableTactic false
set_option linter.unusedTactic false
set_option linter.unnecessarySeqFocus false

/-- Model of an IEEE-754 double as stored in the numpy arrays of
`optimizer.py`: a finite value (idealised as a rational), an infinity, or
NaN. -/
inductive FP where
  | fin (q : ℚ)
  | inf
  | neginf
  | nan
deriving DecidableEq

instance : Inhabited FP := ⟨FP.nan⟩

/-- IEEE `<` on doubles: any comparison involving NaN is false. -/
def fpLtB : FP → FP → Bool
  | FP.nan, _ => false
  | _, FP.nan => false
  | FP.neginf, FP.neginf => false
  | FP.neginf, _ => true
  | _, FP.neginf => false
  | FP.fin _, FP.inf => true
  | FP.inf, _ => false
  | FP.fin a, FP.fin b => decide (a < b)

/-- IEEE `<=` on doubles: any comparison involving NaN is false. -/
def fpLeB : FP → FP → Bool
  | FP.nan, _ => false
  | _, FP.nan => false
  | FP.neginf, _ => true
  | _, FP.neginf => false
  | _, FP.inf => true
  | FP.inf, _ => false
  | FP.fin a, FP.fin b => decide (a ≤ b)

/-- `np.isnan`. -/
def fpIsNan : FP → Bool
  | FP.nan => true
  | _ => false

/-- `np.isfinite`. -/
def fpIsFinite : FP → Bool
  | FP.fin _ => true
  | _ => false

/-- The `SimulationResults` NamedTuple of `optimizer.py`: four parallel
arrays indexed by simulation number. -/
structure SimulationResults (α : Type) where
  returns : List α
  volatilities : List α
  sharpe_ratios : List α
  all_weights : List (List α)
deriving DecidableEq

/-- Python exceptions that can escape `find_optimal_portfolios`.
`valueError` is numpy's `ValueError` (raised by `np.argmax` on an empty
array); `emptyCloudError` is the error type named by the specification,
which no code in the repository defines or raises. -/
inductive PyError where
  | valueError
  | emptyCloudError
deriving DecidableEq

/-- The scanning loop inside numpy's argmax/argmin reduction kernels:
starting from current extremum `m` (found at index `best`), scan the
remaining elements (the element at position `i` first); replace the
extremum whenever `better x m` holds, and stop at the first NaN (numpy's
kernels test `npy_isnan` and break, so the first NaN encountered wins). -/
def argExtLoop {α : Type} (better : α → α → Bool) (isN : α → Bool) :
    List α → α → Nat → Nat → Nat
  | [], _, _, best => best
  | x :: rest, m, i, best =>
    if better x m then
      if isN x then i
      else argExtLoop better isN rest x (i + 1) i
    else argExtLoop better isN rest m (i + 1) best

/-- numpy argmax/argmin (`better` selects the direction): `ValueError` on
an empty array, otherwise the scanning loop starting from element 0. -/
def npArgExt {α : Type} (better : α → α → Bool) (isN : α → Bool)
    (xs : List α) : Except PyError Nat :=
  match xs with
  | [] => Except.error PyError.valueError
  | x :: rest => Except.ok (if isN x then 0 else argExtLoop better isN rest x 1 0)

/-- One step of building a Python `dict`: a repeated key overwrites the
stored value in place (keeping the key's original position), a fresh key is
appended. -/
def pyDictInsert {α : Type} (acc : List (String × α)) (p : String × α) :
    List (String × α) :=
  if acc.any (fun q => q.1 == p.1) then
    acc.map (fun q => if q.1 == p.1 then p else q)
  else acc ++ [p]

/-- Python `dict(zip(keys, values))` modelled as an insertion-ordered
association list with unique keys. -/
def pyDict {α : Type} (ps : List (String × α)) : List (String × α) :=
  ps.foldl pyDictInsert []

/-- One of the two dictionaries built by `find_optimal_portfolios`
(`ret` stands for the source's `'return'` key, a reserved word in Lean). -/
structure PortfolioEntry (α : Type) where
  weights : List (String × α)
  ret : α
  volatility : α
  sharpe : α
deriving DecidableEq

/-- The result dictionary of `find_optimal_portfolios`: exactly the keys
`'max_sharpe'` and `'min_volatility'`. -/
structure OptimalPortfolios (α : Type) where
  max_sharpe : PortfolioEntry α
  min_volatility : PortfolioEntry α
deriving DecidableEq

/-- The candidate dictionary `find_optimal_portfolios` builds at a selected
index: `dict(zip(tickers, weights[idx]))` plus the three metric arrays read
at `idx`. -/
def mkEntry {α : Type} [Inhabited α] (sim : SimulationResults α)
    (tickers : List String) (idx : Nat) : PortfolioEntry α :=
  { weights := pyDict (tickers.zip (sim.all_weights.getD idx []))
    ret := sim.returns.getD idx default
    volatility := sim.volatilities.getD idx default
    sharpe := sim.sharpe_ratios.getD idx default }

/-- Body of `find_optimal_portfolios`, generic in the scalar type:
`np.argmax` over the sharpe array (first), `np.argmin` over the volatility
array, and the two candidate dictionaries. -/
def findOptimalCore {α : Type} [Inhabited α] (ltB : α → α → Bool)
    (isN : α → Bool) (sim : SimulationResults α) (tickers : List String) :
    Except PyError (OptimalPortfolios α) := do
  let maxSharpeIdx ← npArgExt (fun x m => ltB m x || isN x) isN sim.sharpe_ratios
  let minVolIdx ← npArgExt (fun x m => ltB x m || isN x) isN sim.volatilities
  Except.ok
    { max_sharpe := mkEntry sim tickers maxSharpeIdx
      min_volatility := mkEntry sim tickers minVolIdx }

/-- `find_optimal_portfolios` from `optimizer.py` over float (`FP`) arrays.
The parameters `annual_returns`, `cov_matrix` and `risk_free_rate` appear
in the source signature but are never read by the body. -/
def find_optimal_portfolios (simulation_results : SimulationResults FP)
    (annual_returns : List FP) (cov_matrix : List (List FP))
    (tickers : List String) (risk_free_rate : FP) :
    Except PyError (OptimalPortfolios FP) :=
  findOptimalCore fpLtB fpIsNan simulation_results tickers

/-- `find_optimal_portfolios` applied to the real-valued arrays produced by
the simulation pipeline (real comparisons in place of IEEE float
comparisons; no NaN exists in ℝ). -/
noncomputable def find_optimal_portfolios_real {n : ℕ}
    (simulation_results : SimulationResults ℝ) (annual_returns : Fin n → ℝ)
    (cov_matrix : Matrix (Fin n) (Fin n) ℝ) (tickers : List String)
    (risk_free_rate : ℝ) : Except PyError (OptimalPortfolios ℝ) :=
  findOptimalCore (fun a b => decide (a < b)) (fun _ => false)
    simulation_results tickers

/-- `generate_random_weights` from `optimizer.py`: the call
`np.random.random(n_assets)` is modelled by passing the drawn raw values
explicitly (`raw`); the function then normalises them by their sum
(`weights /= weights.sum()`). -/
noncomputable def generate_random_weights (n_assets : ℕ)
    (raw : Fin n_assets → ℝ) : Fin n_assets → ℝ :=
  fun i => raw i / (∑ j, raw j)

/-- `calculate_portfolio_metrics` from `optimizer.py`:
`np.dot(weights, annual_returns)`,
`np.sqrt(np.dot(weights.T, np.dot(cov_matrix, weights)))`, and
`(portfolio_return - risk_free_rate) / portfolio_volatility`.  A pure
function of its arguments. -/
noncomputable def calculate_portfolio_metrics {n : ℕ} (weights : Fin n → ℝ)
    (annual_returns : Fin n → ℝ) (cov_matrix : Matrix (Fin n) (Fin n) ℝ)
    (risk_free_rate : ℝ) : ℝ × ℝ × ℝ :=
  let portfolio_return := Matrix.dotProduct weights annual_returns
  let portfolio_volatility :=
    Real.sqrt (Matrix.dotProduct weights (Matrix.mulVec cov_matrix weights))
  let sharpe_ratio := (portfolio_return - risk_free_rate) / portfolio_volatility
  (portfolio_return, portfolio_volatility, sharpe_ratio)

/-- `run_monte_carlo_simulation` from `optimizer.py`: `n_simulations`
iterations, each normalising one fresh draw of raw random values
(`draws i`) and storing the three metrics and the weight vector at index
`i` of the four parallel arrays. -/
noncomputable def run_monte_carlo_simulation {n : ℕ}
    (annual_returns : Fin n → ℝ) (cov_matrix : Matrix (Fin n) (Fin n) ℝ)
    (n_simulations : ℕ) (risk_free_rate : ℝ) (draws : ℕ → Fin n → ℝ) :
    SimulationResults ℝ :=
  { returns := (List.range n_simulations).map fun i =>
      (calculate_portfolio_metrics (generate_random_weights n (draws i))
        annual_returns cov_matrix risk_free_rate).1
    volatilities := (List.range n_simulations).map fun i =>
      (calculate_portfolio_metrics (generate_random_weights n (draws i))
        annual_returns cov_matrix risk_free_rate).2.1
    sharpe_ratios := (List.range n_simulations).map fun i =>
      (calculate_portfolio_metrics (generate_random_weights n (draws i))
        annual_returns cov_matrix risk_free_rate).2.2
    all_weights := (List.range n_simulations).map fun i =>
      List.ofFn (generate_random_weights n (draws i)) }

/-- `optimize_portfolio` from `optimizer.py`: run the Monte Carlo
simulation, then select the two optimal portfolios from the cloud. -/
noncomputable def optimize_portfolio {n : ℕ} (annual_returns : Fin n → ℝ)
    (cov_matrix : Matrix (Fin n) (Fin n) ℝ) (tickers : List String)
    (n_simulations : ℕ) (risk_free_rate : ℝ) (draws : ℕ → Fin n → ℝ) :
    SimulationResults ℝ × Except PyError (OptimalPortfolios ℝ) :=
  let simulation_results :=
    run_monte_carlo_simulation annual_returns cov_matrix n_simulations
      risk_free_rate draws
  (simulation_results,
   find_optimal_portfolios_real simulation_results annual_returns cov_matrix
     tickers risk_free_rate)

/-- The global-RNG view of the sampler: `np.random.random` has no seed or
generator parameter in `optimizer.py`, it reads successive values from the
process-wide numpy RNG.  The RNG is modelled as a stream `u` of raw values
together with a cursor `pos`; one call of `run_monte_carlo_simulation`
consumes `n_simulations * n` values and advances the cursor. -/
noncomputable def run_monte_carlo_simulation_global {n : ℕ} (u : ℕ → ℝ)
    (pos : ℕ) (annual_returns : Fin n → ℝ)
    (cov_matrix : Matrix (Fin n) (Fin n) ℝ) (n_simulations : ℕ)
    (risk_free_rate : ℝ) : SimulationResults ℝ × ℕ :=
  (run_monte_carlo_simulation annual_returns cov_matrix n_simulations
     risk_free_rate (fun i j => u (pos + i * n + j.val)),
   pos + n_simulations * n)

/-- pandas `DataFrame.mean`: per-column arithmetic mean over the shared row
index. -/
noncomputable def dfMean (T k : ℕ) (R : Fin T → Fin k → ℝ) : Fin k → ℝ :=
  fun j => (∑ t, R t j) / T

/-- pandas `DataFrame.cov`: sample covariance (denominator `T - 1`,
`ddof = 1`) computed over the shared row index, the same rows for every
column pair (the return frame contains no missing values: the price frame
and the log-return frame are both passed through `dropna`). -/
noncomputable def dfCov (T k : ℕ) (R : Fin T → Fin k → ℝ) :
    Matrix (Fin k) (Fin k) ℝ :=
  fun j j' =>
    (∑ t, (R t j - dfMean T k R j) * (R t j' - dfMean T k R j')) /
      ((T : ℝ) - 1)

/-- pandas `DataFrame.corr`: Pearson correlation, the covariance normalised
by the two standard deviations. -/
noncomputable def dfCorr (T k : ℕ) (R : Fin T → Fin k → ℝ) :
    Matrix (Fin k) (Fin k) ℝ :=
  fun j j' =>
    dfCov T k R j j' / (Real.sqrt (dfCov T k R j j) * Real.sqrt (dfCov T k R j' j'))

/-- `calculate_annual_metrics` from `data_fetcher.py`:
`returns.mean() * trading_days`, `returns.cov() * trading_days`, and the
correlation matrix. -/
noncomputable def calculate_annual_metrics (T k : ℕ)
    (returns : Fin T → Fin k → ℝ) (trading_days : ℕ) :
    (Fin k → ℝ) × Matrix (Fin k) (Fin k) ℝ × Matrix (Fin k) (Fin k) ℝ :=
  (fun j => dfMean T k returns j * trading_days,
   fun j j' => dfCov T k returns j j' * trading_days,
   dfCorr T k returns)

/-! ### Properties of the numpy argmax/argmin scanning loop -/

/-- The loop result stays below the number of elements scanned. -/
theorem argExtLoop_lt {α : Type} (better : α → α → Bool) (isN : α → Bool) :
    ∀ (rest : List α) (m : α) (i best : ℕ), best < i →
      argExtLoop better isN rest m i best < i + rest.length := by
  intro rest
  induction rest with
  | nil => intro m i best h; simpa [argExtLoop] using h
  | cons x rest ih =>
    intro m i best h
    simp only [argExtLoop, List.length_cons]
    cases hb : better x m with
    | true =>
      rw [if_pos rfl]
      cases hn : isN x with
      | true => rw [if_pos rfl]; omega
      | false =>
        rw [if_neg (by simp)]
        have := ih x (i + 1) i (Nat.lt_succ_self i)
        omega
    | false =>
      rw [if_neg (by simp)]
      have := ih m (i + 1) best (by omega)
      omega

/-- `np.argmax`/`np.argmin` on a non-empty array succeeds with an in-range
index (whatever the array contains). -/
theorem npArgExt_ok {α : Type} (better : α → α → Bool) (isN : α → Bool)
    (xs : List α) (hne : xs ≠ []) :
    ∃ r, npArgExt better isN xs = Except.ok r ∧ r < xs.length := by
  cases xs with
  | nil => exact absurd rfl hne
  | cons x rest =>
    refine ⟨if isN x then 0 else argExtLoop better isN rest x 1 0, rfl, ?_⟩
    cases hn : isN x with
    | true => rw [if_pos rfl]; simp
    | false =>
      rw [if_neg (by simp)]
      simp only [List.length_cons]
      have := argExtLoop_lt better isN rest x 1 0 Nat.one_pos
      omega

/-- Main loop invariant, for a list whose elements all satisfy a
"good" predicate `G` (no NaN among them) on which `better` behaves like a
strict linear order: the final index is in range, beats no later element,
and strictly beats every earlier element (first-occurrence tie-break). -/
theorem argExtLoop_spec {α : Type} (B : α → α → Bool) (isN : α → Bool)
    (G : α → Prop) (d : α)
    (hGN : ∀ x, G x → isN x = false)
    (H1 : ∀ a b c, G a → G b → G c → B b a = true → B c a = false → B c b = false)
    (H2 : ∀ a b c, G a → G b → G c → B b a = true → B c a = false → B b c = true)
    (H3 : ∀ a, G a → B a a = false) :
    ∀ (rest : List α) (xs : List α) (k best : ℕ) (m : α),
      xs.drop k = rest → k ≤ xs.length → best < k → (∀ x ∈ xs, G x) →
      xs.getD best d = m →
      (∀ j, j < k → B (xs.getD j d) m = false) →
      (∀ j, j < best → B m (xs.getD j d) = true) →
      argExtLoop B isN rest m k best < xs.length ∧
      (∀ j, j < xs.length →
        B (xs.getD j d) (xs.getD (argExtLoop B isN rest m k best) d) = false) ∧
      (∀ j, j < argExtLoop B isN rest m k best →
        B (xs.getD (argExtLoop B isN rest m k best) d) (xs.getD j d) = true) := by
  intro rest
  induction rest with
  | nil =>
    intro xs k best m hdrop hk hbk hG hgd hle hlt
    have hlen : xs.length - k = 0 := by
      have := congrArg List.length hdrop
      simpa [List.length_drop] using this
    have hkeq : k = xs.length := by omega
    simp only [argExtLoop]
    refine ⟨by omega, ?_, ?_⟩
    · intro j hj
      rw [hgd]
      exact hle j (by omega)
    · intro j hj
      rw [hgd]
      exact hlt j hj
  | cons x rest ih =>
    intro xs k best m hdrop hk hbk hG hgd hle hlt
    have hklt : k < xs.length := by
      have := congrArg List.length hdrop
      simp [List.length_drop] at this
      omega
    have hxs : xs.drop k = xs[k] :: xs.drop (k + 1) := List.drop_eq_getElem_cons hklt
    rw [hdrop] at hxs
    have hxk : x = xs[k] := (List.cons.injEq _ _ _ _ ▸ hxs).1
    have hrest : xs.drop (k + 1) = rest := ((List.cons.injEq _ _ _ _ ▸ hxs).2).symm
    have hgdk : xs.getD k d = x := by
      rw [List.getD_eq_getElem?_getD, List.getElem?_eq_getElem hklt, hxk]; rfl
    have hGx : G x := hxk ▸ hG _ (List.getElem_mem hklt)
    have hGm : G m := by
      rw [← hgd, List.getD_eq_getElem?_getD,
        List.getElem?_eq_getElem (by omega : best < xs.length)]
      exact hG _ (List.getElem_mem _)
    have hGg : ∀ j, j < xs.length → G (xs.getD j d) := by
      intro j hj
      rw [List.getD_eq_getElem?_getD, List.getElem?_eq_getElem hj]
      exact hG _ (List.getElem_mem _)
    have hnx : isN x = false := hGN x hGx
    simp only [argExtLoop, hnx, Bool.false_eq_true, if_false]
    by_cases hB : B x m = true
    · rw [if_pos hB]
      refine ih xs (k + 1) k x hrest (by omega) (by omega) hG hgdk ?_ ?_
      · intro j hj
        rcases Nat.lt_or_ge j k with hjk | hjk
        · exact H1 m x (xs.getD j d) hGm hGx (hGg j (by omega)) hB (hle j hjk)
        · have : j = k := by omega
          rw [this, hgdk]
          exact H3 x hGx
      · intro j hj
        exact H2 m x (xs.getD j d) hGm hGx (hGg j (by omega)) hB (hle j hj)
    · have hB' : B x m = false := by
        cases hBxm : B x m
        · rfl
        · exact absurd hBxm hB
      rw [if_neg (by rw [hB']; exact Bool.false_ne_true)]
      refine ih xs (k + 1) best m hrest (by omega) (by omega) hG hgd ?_ hlt
      intro j hj
      rcases Nat.lt_or_ge j k with hjk | hjk
      · exact hle j hjk
      · have : j = k := by omega
        rw [this, hgdk]
        exact hB'

/-- `np.argmax`/`np.argmin` on a non-empty NaN-free array returns the
least index attaining the extremum. -/
theorem npArgExt_spec {α : Type} (B : α → α → Bool) (isN : α → Bool)
    (G : α → Prop) (d : α)
    (hGN : ∀ x, G x → isN x = false)
    (H1 : ∀ a b c, G a → G b → G c → B b a = true → B c a = false → B c b = false)
    (H2 : ∀ a b c, G a → G b → G c → B b a = true → B c a = false → B b c = true)
    (H3 : ∀ a, G a → B a a = false)
    (xs : List α) (hne : xs ≠ []) (hG : ∀ x ∈ xs, G x) :
    ∃ r, npArgExt B isN xs = Except.ok r ∧ r < xs.length ∧
      (∀ j, j < xs.length → B (xs.getD j d) (xs.getD r d) = false) ∧
      (∀ j, j < r → B (xs.getD r d) (xs.getD j d) = true) := by
  cases xs with
  | nil => exact absurd rfl hne
  | cons x rest =>
    have hGx : G x := hG x (List.mem_cons_self x rest)
    have hnx : isN x = false := hGN x hGx
    refine ⟨argExtLoop B isN rest x 1 0, ?_, ?_⟩
    · simp [npArgExt, hnx]
    · exact argExtLoop_spec B isN G d hGN H1 H2 H3 rest (x :: rest) 1 0 x rfl
        (by simp) Nat.one_pos hG rfl
        (by intro j hj
            have : j = 0 := by omega
            rw [this]
            exact H3 x hGx)
        (by intro j hj; omega)

/-- If the loop meets a NaN (every element before it being non-NaN), it
stops there and returns that index. -/
theorem argExtLoop_first_nan {α : Type} (B : α → α → Bool) (isN : α → Bool)
    (hN : ∀ x m, isN x = true → B x m = true) :
    ∀ (pre : List α), (∀ y ∈ pre, isN y = false) →
    ∀ (x : α) (suf : List α) (m : α) (k best : ℕ),
      isN x = true → isN m = false →
      argExtLoop B isN (pre ++ x :: suf) m k best = k + pre.length := by
  intro pre
  induction pre with
  | nil =>
    intro _ x suf m k best hx hm
    simp [argExtLoop, hN x m hx, hx]
  | cons y pre ih =>
    intro hpre x suf m k best hx hm
    have hy : isN y = false := hpre y (List.mem_cons_self y pre)
    have hpre' : ∀ z ∈ pre, isN z = false := fun z hz => hpre z (List.mem_cons_of_mem y hz)
    simp only [List.cons_append, argExtLoop, hy, Bool.false_eq_true, if_false,
      List.append_eq]
    by_cases hB : B y m = true
    · rw [if_pos hB, ih hpre' x suf y (k + 1) k hx hy]
      simp only [List.length_cons]
      omega
    · rw [if_neg hB, ih hpre' x suf m (k + 1) best hx hm]
      simp only [List.length_cons]
      omega

/-- `np.argmax`/`np.argmin` on an array containing a NaN returns the index
of the first NaN: the NaN silently wins the selection. -/
theorem npArgExt_first_nan {α : Type} (B : α → α → Bool) (isN : α → Bool)
    (hN : ∀ x m, isN x = true → B x m = true)
    (pre : List α) (hpre : ∀ y ∈ pre, isN y = false)
    (x : α) (suf : List α) (hx : isN x = true) :
    npArgExt B isN (pre ++ x :: suf) = Except.ok pre.length := by
  cases pre with
  | nil => simp [npArgExt, hx]
  | cons y pre' =>
    have hy : isN y = false := hpre y (List.mem_cons_self y pre')
    have hpre' : ∀ z ∈ pre', isN z = false :=
      fun z hz => hpre z (List.mem_cons_of_mem y hz)
    simp only [List.cons_append, npArgExt, hy, Bool.false_eq_true, if_false,
      List.append_eq]
    rw [argExtLoop_first_nan B isN hN pre' hpre' x suf y 1 0 hx hy]
    simp only [List.length_cons]
    rw [Nat.add_comm]

/-! ### Order facts about IEEE comparisons on non-NaN values -/

/-- `<` is irreflexive on floats. -/
theorem fpLtB_irrefl (a : FP) : fpLtB a a = false := by
  cases a <;> simp [fpLtB]

/-- On non-NaN floats, failing `a < b` means `b <= a`. -/
theorem fpLtB_eq_false_iff (a b : FP) (ha : fpIsNan a = false)
    (hb : fpIsNan b = false) : fpLtB a b = false ↔ fpLeB b a = true := by
  cases a <;> cases b <;> simp_all [fpLtB, fpLeB, fpIsNan] <;> constructor <;>
    intro h <;> linarith

/-- On non-NaN floats: `a < b` and `not (a < c)` give `not (b < c)`. -/
theorem fpLtB_trans_max1 (a b c : FP) (ha : fpIsNan a = false)
    (hb : fpIsNan b = false) (hc : fpIsNan c = false)
    (h1 : fpLtB a b = true) (h2 : fpLtB a c = false) : fpLtB b c = false := by
  cases a <;> cases b <;> cases c <;> simp_all [fpLtB, fpIsNan] <;> linarith

/-- On non-NaN floats: `a < b` and `not (a < c)` give `c < b`. -/
theorem fpLtB_trans_max2 (a b c : FP) (ha : fpIsNan a = false)
    (hb : fpIsNan b = false) (hc : fpIsNan c = false)
    (h1 : fpLtB a b = true) (h2 : fpLtB a c = false) : fpLtB c b = true := by
  cases a <;> cases b <;> cases c <;> simp_all [fpLtB, fpIsNan] <;> linarith

/-- On non-NaN floats: `b < a` and `not (c < a)` give `not (c < b)`. -/
theorem fpLtB_trans_min1 (a b c : FP) (ha : fpIsNan a = false)
    (hb : fpIsNan b = false) (hc : fpIsNan c = false)
    (h1 : fpLtB b a = true) (h2 : fpLtB c a = false) : fpLtB c b = false := by
  cases a <;> cases b <;> cases c <;> simp_all [fpLtB, fpIsNan] <;> linarith

/-- On non-NaN floats: `b < a` and `not (c < a)` give `b < c`. -/
theorem fpLtB_trans_min2 (a b c : FP) (ha : fpIsNan a = false)
    (hb : fpIsNan b = false) (hc : fpIsNan c = false)
    (h1 : fpLtB b a = true) (h2 : fpLtB c a = false) : fpLtB b c = true := by
  cases a <;> cases b <;> cases c <;> simp_all [fpLtB, fpIsNan] <;> linarith

/-- On non-NaN floats, `a < b` refutes `b <= a`. -/
theorem fpLeB_eq_false_of_fpLtB (a b : FP) (ha : fpIsNan a = false)
    (hb : fpIsNan b = false) (h : fpLtB a b = true) : fpLeB b a = false := by
  cases hle : fpLeB b a
  · rfl
  · rw [(fpLtB_eq_false_iff a b ha hb).mpr hle] at h
    exact absurd h Bool.false_ne_true

/-- `np.argmax` over a non-empty NaN-free float array: the result index is
in range, its value is `>=` every value in the array, and is strictly
greater than every value at a smaller index. -/
theorem npArgmax_fp_spec (xs : List FP) (hne : xs ≠ [])
    (hnn : ∀ x ∈ xs, fpIsNan x = false) :
    ∃ r, npArgExt (fun x m => fpLtB m x || fpIsNan x) fpIsNan xs =
        Except.ok r ∧ r < xs.length ∧
      (∀ j, j < xs.length →
        fpLeB (xs.getD j default) (xs.getD r default) = true) ∧
      (∀ j, j < r → fpLeB (xs.getD r default) (xs.getD j default) = false) := by
  have hgood : ∀ j, j < xs.length → fpIsNan (xs.getD j default) = false := by
    intro j hj
    rw [List.getD_eq_getElem?_getD, List.getElem?_eq_getElem hj]
    exact hnn _ (List.getElem_mem _)
  obtain ⟨r, hok, hr, hmax, hstrict⟩ :=
    npArgExt_spec (fun x m => fpLtB m x || fpIsNan x) fpIsNan
      (fun a => fpIsNan a = false) default (fun x hx => hx)
      (by intro a b c ha hb hc h1 h2
          dsimp only at h1 h2 ⊢
          rw [hb, Bool.or_false] at h1
          rw [hc, Bool.or_false] at h2 ⊢
          exact fpLtB_trans_max1 a b c ha hb hc h1 h2)
      (by intro a b c ha hb hc h1 h2
          dsimp only at h1 h2 ⊢
          rw [hb, Bool.or_false] at h1 ⊢
          rw [hc, Bool.or_false] at h2
          exact fpLtB_trans_max2 a b c ha hb hc h1 h2)
      (by intro a ha; dsimp only; rw [ha, Bool.or_false]; exact fpLtB_irrefl a)
      xs hne hnn
  refine ⟨r, hok, hr, ?_, ?_⟩
  · intro j hj
    have := hmax j hj
    rw [hgood j hj, Bool.or_false] at this
    exact (fpLtB_eq_false_iff _ _ (hgood r hr) (hgood j hj)).mp this
  · intro j hj
    have := hstrict j hj
    rw [hgood r hr, Bool.or_false] at this
    exact fpLeB_eq_false_of_fpLtB _ _ (hgood j (by omega)) (hgood r hr) this

/-- `np.argmin` over a non-empty NaN-free float array: the result index is
in range, its value is `<=` every value in the array, and is strictly
smaller than every value at a smaller index. -/
theorem npArgmin_fp_spec (xs : List FP) (hne : xs ≠ [])
    (hnn : ∀ x ∈ xs, fpIsNan x = false) :
    ∃ r, npArgExt (fun x m => fpLtB x m || fpIsNan x) fpIsNan xs =
        Except.ok r ∧ r < xs.length ∧
      (∀ j, j < xs.length →
        fpLeB (xs.getD r default) (xs.getD j default) = true) ∧
      (∀ j, j < r → fpLeB (xs.getD j default) (xs.getD r default) = false) := by
  have hgood : ∀ j, j < xs.length → fpIsNan (xs.getD j default) = false := by
    intro j hj
    rw [List.getD_eq_getElem?_getD, List.getElem?_eq_getElem hj]
    exact hnn _ (List.getElem_mem _)
  obtain ⟨r, hok, hr, hmin, hstrict⟩ :=
    npArgExt_spec (fun x m => fpLtB x m || fpIsNan x) fpIsNan
      (fun a => fpIsNan a = false) default (fun x hx => hx)
      (by intro a b c ha hb hc h1 h2
          dsimp only at h1 h2 ⊢
          rw [hb, Bool.or_false] at h1
          rw [hc, Bool.or_false] at h2 ⊢
          exact fpLtB_trans_min1 a b c ha hb hc h1 h2)
      (by intro a b c ha hb hc h1 h2
          dsimp only at h1 h2 ⊢
          rw [hb, Bool.or_false] at h1 ⊢
          rw [hc, Bool.or_false] at h2
          exact fpLtB_trans_min2 a b c ha hb hc h1 h2)
      (by intro a ha; dsimp only; rw [ha, Bool.or_false]; exact fpLtB_irrefl a)
      xs hne hnn
  refine ⟨r, hok, hr, ?_, ?_⟩
  · intro j hj
    have := hmin j hj
    rw [hgood j hj, Bool.or_false] at this
    exact (fpLtB_eq_false_iff _ _ (hgood j hj) (hgood r hr)).mp this
  · intro j hj
    have := hstrict j hj
    rw [hgood r hr, Bool.or_false] at this
    exact fpLeB_eq_false_of_fpLtB _ _ (hgood r hr) (hgood j (by omega)) this

/-! ### Claims about `find_optimal_portfolios` -/

/-- C1 (amended): for every simulation cloud whose sharpe and volatility
arrays are non-empty and contain no NaN, `find_optimal_portfolios` returns
as `max_sharpe` the candidate built at the argmax index of the sharpe
array and as `min_volatility` the candidate built at the argmin index of
the volatility array, ties broken by the lowest index (every strictly
earlier index holds a strictly worse value); hence the selected
`max_sharpe` candidate's sharpe is `>=` every sharpe in the cloud (in
particular every finite one) and the selected `min_volatility` candidate's
volatility is `<=` every volatility in the cloud.  (The restriction to
NaN-free arrays is forced: a NaN entry wins `np.argmax`/`np.argmin`, see
`find_optimal_nan_wins_argmax_counterexample`.) -/
theorem find_optimal_selects_extrema_of_no_nan
    (sim : SimulationResults FP) (annual_returns : List FP)
    (cov_matrix : List (List FP)) (tickers : List String)
    (risk_free_rate : FP)
    (hs : sim.sharpe_ratios ≠ []) (hv : sim.volatilities ≠ [])
    (hsn : ∀ x ∈ sim.sharpe_ratios, fpIsNan x = false)
    (hvn : ∀ x ∈ sim.volatilities, fpIsNan x = false) :
    ∃ mi vi,
      find_optimal_portfolios sim annual_returns cov_matrix tickers
          risk_free_rate =
        Except.ok
          { max_sharpe := mkEntry sim tickers mi
            min_volatility := mkEntry sim tickers vi } ∧
      mi < sim.sharpe_ratios.length ∧ vi < sim.volatilities.length ∧
      (∀ j, j < sim.sharpe_ratios.length →
        fpLeB (sim.sharpe_ratios.getD j default)
          (sim.sharpe_ratios.getD mi default) = true) ∧
      (∀ j, j < mi →
        fpLeB (sim.sharpe_ratios.getD mi default)
          (sim.sharpe_ratios.getD j default) = false) ∧
      (∀ j, j < sim.volatilities.length →
        fpLeB (sim.volatilities.getD vi default)
          (sim.volatilities.getD j default) = true) ∧
      (∀ j, j < vi →
        fpLeB (sim.volatilities.getD j default)
          (sim.volatilities.getD vi default) = false) := by
  obtain ⟨mi, hmok, hmi, hmax, hmaxs⟩ := npArgmax_fp_spec sim.sharpe_ratios hs hsn
  obtain ⟨vi, hvok, hvi, hmin, hmins⟩ := npArgmin_fp_spec sim.volatilities hv hvn
  refine ⟨mi, vi, ?_, hmi, hvi, hmax, hmaxs, hmin, hmins⟩
  simp only [find_optimal_portfolios, findOptimalCore, hmok, hvok]
  rfl

/-- Witness for C1 (amended) at a concrete cloud with a sharpe tie. -/
theorem find_optimal_selects_extrema_of_no_nan_witness :
    ∃ mi vi,
      find_optimal_portfolios
          { returns := [FP.fin 1, FP.fin 2]
            volatilities := [FP.fin 3, FP.fin 1]
            sharpe_ratios := [FP.fin 5, FP.fin 5]
            all_weights := [[FP.fin 1], [FP.fin 1]] }
          [] [] ["A"] (FP.fin 0) =
        Except.ok
          { max_sharpe :=
              mkEntry
                { returns := [FP.fin 1, FP.fin 2]
                  volatilities := [FP.fin 3, FP.fin 1]
                  sharpe_ratios := [FP.fin 5, FP.fin 5]
                  all_weights := [[FP.fin 1], [FP.fin 1]] } ["A"] mi
            min_volatility :=
              mkEntry
                { returns := [FP.fin 1, FP.fin 2]
                  volatilities := [FP.fin 3, FP.fin 1]
                  sharpe_ratios := [FP.fin 5, FP.fin 5]
                  all_weights := [[FP.fin 1], [FP.fin 1]] } ["A"] vi } ∧
      mi < 2 ∧ vi < 2 ∧
      (∀ j, j < 2 →
        fpLeB (([FP.fin 5, FP.fin 5] : List FP).getD j default)
          (([FP.fin 5, FP.fin 5] : List FP).getD mi default) = true) ∧
      (∀ j, j < mi →
        fpLeB (([FP.fin 5, FP.fin 5] : List FP).getD mi default)
          (([FP.fin 5, FP.fin 5] : List FP).getD j default) = false) ∧
      (∀ j, j < 2 →
        fpLeB (([FP.fin 3, FP.fin 1] : List FP).getD vi default)
          (([FP.fin 3, FP.fin 1] : List FP).getD j default) = true) ∧
      (∀ j, j < vi →
        fpLeB (([FP.fin 3, FP.fin 1] : List FP).getD j default)
          (([FP.fin 3, FP.fin 1] : List FP).getD vi default) = false) :=
  find_optimal_selects_extrema_of_no_nan
    { returns := [FP.fin 1, FP.fin 2]
      volatilities := [FP.fin 3, FP.fin 1]
      sharpe_ratios := [FP.fin 5, FP.fin 5]
      all_weights := [[FP.fin 1], [FP.fin 1]] }
    [] [] ["A"] (FP.fin 0) (by decide) (by decide) (by decide) (by decide)

/-- C1 fails as stated: in the cloud with sharpe array `[1, NaN]` (all
volatilities finite), the selected `max_sharpe` candidate's sharpe is the
NaN, which is not `>=` the finite sharpe `1` present in the cloud. -/
theorem find_optimal_nan_wins_argmax_counterexample :
    (find_optimal_portfolios
        { returns := [FP.fin 0, FP.fin 0]
          volatilities := [FP.fin 1, FP.fin 1]
          sharpe_ratios := [FP.fin 1, FP.nan]
          all_weights := [[FP.fin 1], [FP.fin 1]] }
        [] [] ["A"] (FP.fin 0)).map
      (fun d => fpLeB (FP.fin 1) d.max_sharpe.sharpe) =
      Except.ok false ∧
    FP.fin 1 ∈ ([FP.fin 1, FP.nan] : List FP) ∧
    fpIsFinite (FP.fin 1) = true := by
  refine ⟨rfl, ?_, rfl⟩
  exact List.mem_cons_self _ _

/-- C2 fails as stated: in the cloud with sharpe array `[1, NaN]`, a finite
sharpe exists, yet the returned `max_sharpe` candidate's sharpe is the NaN:
`np.argmax` does not exclude non-finite values. -/
theorem find_optimal_nonfinite_wins_counterexample :
    (find_optimal_portfolios
        { returns := [FP.fin 0, FP.fin 0]
          volatilities := [FP.fin 1, FP.fin 1]
          sharpe_ratios := [FP.fin 1, FP.nan]
          all_weights := [[FP.fin 1], [FP.fin 1]] }
        [] [] ["A"] (FP.fin 0)).map
      (fun d => fpIsFinite d.max_sharpe.sharpe) = Except.ok false ∧
    ([FP.fin 1, FP.nan] : List FP).any fpIsFinite = true :=
  ⟨rfl, rfl⟩

/-- C2 (amended): `find_optimal_portfolios` does not exclude non-finite
sharpe values.  Whenever the sharpe array contains a NaN, the `max_sharpe`
candidate is the one at the index of the first NaN, so its sharpe is NaN
even if finite sharpe values exist in the cloud. -/
theorem find_optimal_first_nan_wins
    (sim : SimulationResults FP) (annual_returns : List FP)
    (cov_matrix : List (List FP)) (tickers : List String)
    (risk_free_rate : FP) (pre suf : List FP)
    (hs : sim.sharpe_ratios = pre ++ FP.nan :: suf)
    (hpre : ∀ y ∈ pre, fpIsNan y = false)
    (hv : sim.volatilities ≠ []) :
    ∃ d, find_optimal_portfolios sim annual_returns cov_matrix tickers
          risk_free_rate = Except.ok d ∧
      d.max_sharpe = mkEntry sim tickers pre.length ∧
      d.max_sharpe.sharpe = FP.nan := by
  have hN : ∀ (x m : FP), fpIsNan x = true → (fpLtB m x || fpIsNan x) = true := by
    intro x m hx
    rw [hx, Bool.or_true]
  have hmok : npArgExt (fun x m => fpLtB m x || fpIsNan x) fpIsNan
      sim.sharpe_ratios = Except.ok pre.length := by
    rw [hs]
    exact npArgExt_first_nan _ _ hN pre hpre FP.nan suf rfl
  obtain ⟨vi, hvok, hvi⟩ :=
    npArgExt_ok (fun x m => fpLtB x m || fpIsNan x) fpIsNan sim.volatilities hv
  refine ⟨{ max_sharpe := mkEntry sim tickers pre.length
            min_volatility := mkEntry sim tickers vi }, ?_, rfl, ?_⟩
  · simp only [find_optimal_portfolios, findOptimalCore, hmok, hvok]
    rfl
  · show sim.sharpe_ratios.getD pre.length default = FP.nan
    rw [hs, List.getD_eq_getElem?_getD, List.getElem?_append_right (le_refl _)]
    simp

/-- Witness for C2 (amended) at the concrete sharpe array `[1, NaN]`. -/
theorem find_optimal_first_nan_wins_witness :
    ∃ d, find_optimal_portfolios
        { returns := [FP.fin 0, FP.fin 0]
          volatilities := [FP.fin 1, FP.fin 1]
          sharpe_ratios := [FP.fin 1, FP.nan]
          all_weights := [[FP.fin 1], [FP.fin 1]] }
        [] [] ["A"] (FP.fin 0) = Except.ok d ∧
      d.max_sharpe =
        mkEntry
          { returns := [FP.fin 0, FP.fin 0]
            volatilities := [FP.fin 1, FP.fin 1]
            sharpe_ratios := [FP.fin 1, FP.nan]
            all_weights := [[FP.fin 1], [FP.fin 1]] } ["A"]
          ([FP.fin 1] : List FP).length ∧
      d.max_sharpe.sharpe = FP.nan :=
  find_optimal_first_nan_wins
    { returns := [FP.fin 0, FP.fin 0]
      volatilities := [FP.fin 1, FP.fin 1]
      sharpe_ratios := [FP.fin 1, FP.nan]
      all_weights := [[FP.fin 1], [FP.fin 1]] }
    [] [] ["A"] (FP.fin 0) [FP.fin 1] [] rfl (by decide) (by decide)

/-- C3 fails as stated: on the empty cloud the selector fails with numpy's
`ValueError` (raised by `np.argmax` on an empty sequence), which is not the
`EmptyCloudError` named by the claim — no such error type exists in the
code. -/
theorem find_optimal_empty_value_error_counterexample :
    find_optimal_portfolios
        { returns := [], volatilities := [], sharpe_ratios := []
          all_weights := [] } [] [] [] (FP.fin 0) =
      Except.error PyError.valueError ∧
    PyError.valueError ≠ PyError.emptyCloudError :=
  ⟨rfl, by decide⟩

/-- C3 (amended): for every empty simulation cloud (all four parallel
arrays of length 0) and any other arguments, `find_optimal_portfolios`
fails with numpy's `ValueError` — it returns no result, but the failure is
the implicit numpy exception, not an explicit `EmptyCloudError`. -/
theorem find_optimal_empty_cloud_raises
    (annual_returns : List FP) (cov_matrix : List (List FP))
    (tickers : List String) (risk_free_rate : FP) :
    find_optimal_portfolios
        { returns := [], volatilities := [], sharpe_ratios := []
          all_weights := [] }
        annual_returns cov_matrix tickers risk_free_rate =
      Except.error PyError.valueError :=
  rfl

/-- C9: the selector's output depends only on the simulation cloud and the
ticker list.  The `annual_returns`, `cov_matrix` and `risk_free_rate`
parameters accepted by `find_optimal_portfolios` are dead: any two calls
with the same cloud and tickers but arbitrarily different statistical
arguments return identical dictionaries. -/
theorem find_optimal_ignores_statistical_inputs
    (sim : SimulationResults FP) (tickers : List String)
    (annual_returns₁ annual_returns₂ : List FP)
    (cov_matrix₁ cov_matrix₂ : List (List FP))
    (risk_free_rate₁ risk_free_rate₂ : FP) :
    find_optimal_portfolios sim annual_returns₁ cov_matrix₁ tickers
        risk_free_rate₁ =
      find_optimal_portfolios sim annual_returns₂ cov_matrix₂ tickers
        risk_free_rate₂ :=
  rfl

/-! ### Python dict lemmas -/

/-- Folding `pyDictInsert` over entries with pairwise-distinct keys, all
fresh for the accumulator, just appends them. -/
theorem pyDict_foldl_eq {α : Type} :
    ∀ (ps : List (String × α)) (acc : List (String × α)),
      (ps.map Prod.fst).Nodup →
      (∀ p ∈ ps, ∀ q ∈ acc, ¬ q.1 = p.1) →
      ps.foldl pyDictInsert acc = acc ++ ps := by
  intro ps
  induction ps with
  | nil => intro acc _ _; simp
  | cons p ps ih =>
    intro acc hnd hdisj
    have hfresh : acc.any (fun q => q.1 == p.1) = false := by
      rw [List.any_eq_false]
      intro q hq
      simp only [beq_iff_eq]
      exact hdisj p (List.mem_cons_self p ps) q hq
    have hstep : pyDictInsert acc p = acc ++ [p] := by
      rw [pyDictInsert, if_neg (by rw [hfresh]; exact Bool.false_ne_true)]
    have hnd' : (ps.map Prod.fst).Nodup := (List.nodup_cons.mp (by simpa using hnd)).2
    have hnotmem : p.1 ∉ ps.map Prod.fst := (List.nodup_cons.mp (by simpa using hnd)).1
    have hdisj' : ∀ p' ∈ ps, ∀ q ∈ acc ++ [p], ¬ q.1 = p'.1 := by
      intro p' hp' q hq
      rcases List.mem_append.mp hq with hqa | hqp
      · exact hdisj p' (List.mem_cons_of_mem p hp') q hqa
      · have : q = p := by simpa using hqp
        subst this
        intro hcontra
        exact hnotmem (hcontra ▸ List.mem_map_of_mem Prod.fst hp')
    calc (p :: ps).foldl pyDictInsert acc
        = ps.foldl pyDictInsert (pyDictInsert acc p) := rfl
      _ = (acc ++ [p]) ++ ps := by rw [hstep, ih (acc ++ [p]) hnd' hdisj']
      _ = acc ++ p :: ps := by simp

/-- A Python dict built from entries with pairwise-distinct keys keeps all
of them in order. -/
theorem pyDict_eq_self {α : Type} (ps : List (String × α))
    (hnd : (ps.map Prod.fst).Nodup) : pyDict ps = ps := by
  simpa using pyDict_foldl_eq ps [] hnd (by simp)

/-- The keys of `zip` are the first list truncated to the second's length. -/
theorem map_fst_zip_take {α β : Type} :
    ∀ (l₁ : List α) (l₂ : List β),
      (l₁.zip l₂).map Prod.fst = l₁.take l₂.length := by
  intro l₁
  induction l₁ with
  | nil => intro l₂; simp
  | cons a l₁ ih =>
    intro l₂
    cases l₂ with
    | nil => simp
    | cons b l₂ => simp [ih l₂]

/-- The values of `zip` are the second list truncated to the first's
length. -/
theorem map_snd_zip_take {α β : Type} :
    ∀ (l₁ : List α) (l₂ : List β),
      (l₁.zip l₂).map Prod.snd = l₂.take l₁.length := by
  intro l₁
  induction l₁ with
  | nil => intro l₂; simp
  | cons a l₁ ih =>
    intro l₂
    cases l₂ with
    | nil => simp
    | cons b l₂ => simp [ih l₂]

/-- Size of the weights dict built at an in-range index: `min` of the
ticker count and the weight-vector dimension, provided the tickers are
pairwise distinct. -/
theorem mkEntry_weights_length (sim : SimulationResults FP)
    (tickers : List String) (idx nA : ℕ)
    (hidx : idx < sim.all_weights.length)
    (hrow : ∀ row ∈ sim.all_weights, row.length = nA)
    (hnd : tickers.Nodup) :
    (mkEntry sim tickers idx).weights.length = min tickers.length nA := by
  have hrowlen : (sim.all_weights.getD idx []).length = nA := by
    rw [List.getD_eq_getElem?_getD, List.getElem?_eq_getElem hidx]
    exact hrow _ (List.getElem_mem _)
  have hkeys : ((tickers.zip (sim.all_weights.getD idx [])).map Prod.fst).Nodup := by
    rw [map_fst_zip_take]
    exact hnd.sublist (List.take_sublist _ _)
  show (pyDict (tickers.zip (sim.all_weights.getD idx []))).length = _
  rw [pyDict_eq_self _ hkeys, List.length_zip, hrowlen]

/-- C10 fails as stated: with the duplicated ticker list `["A", "A"]` and a
2-component weight vector, the weights dict of the selected portfolio has 1
entry, not `min 2 2 = 2`: Python `dict` collapses duplicate keys on top of
`zip`'s truncation. -/
theorem find_optimal_duplicate_tickers_counterexample :
    (find_optimal_portfolios
        { returns := [FP.fin 0], volatilities := [FP.fin 1]
          sharpe_ratios := [FP.fin 1]
          all_weights := [[FP.fin 1, FP.fin 1]] }
        [] [] ["A", "A"] (FP.fin 0)).map
      (fun d => d.max_sharpe.weights.length) = Except.ok 1 ∧
    ¬ (1 = min (["A", "A"] : List String).length
          ([FP.fin 1, FP.fin 1] : List FP).length) :=
  ⟨rfl, by decide⟩

/-- C10 (amended): for every cloud whose weight vectors all have `nA`
components (arrays aligned in length) and every pairwise-distinct ticker
list, the weights dict built for each selected portfolio has exactly
`min tickers.length nA` entries — a ticker/weight dimension mismatch is
silently truncated by `zip`, not rejected.  (Duplicate tickers collapse the
dict further, see `find_optimal_duplicate_tickers_counterexample`.) -/
theorem find_optimal_weights_length
    (sim : SimulationResults FP) (annual_returns : List FP)
    (cov_matrix : List (List FP)) (tickers : List String)
    (risk_free_rate : FP) (nA : ℕ)
    (hnd : tickers.Nodup)
    (hrow : ∀ row ∈ sim.all_weights, row.length = nA)
    (hls : sim.all_weights.length = sim.sharpe_ratios.length)
    (hlv : sim.all_weights.length = sim.volatilities.length)
    (hne : sim.sharpe_ratios ≠ []) :
    ∃ d, find_optimal_portfolios sim annual_returns cov_matrix tickers
          risk_free_rate = Except.ok d ∧
      d.max_sharpe.weights.length = min tickers.length nA ∧
      d.min_volatility.weights.length = min tickers.length nA := by
  have hvne : sim.volatilities ≠ [] := by
    have h1 : 0 < sim.sharpe_ratios.length := List.length_pos.mpr hne
    have : 0 < sim.volatilities.length := by omega
    exact List.ne_nil_of_length_pos this
  obtain ⟨mi, hmok, hmi⟩ :=
    npArgExt_ok (fun x m => fpLtB m x || fpIsNan x) fpIsNan sim.sharpe_ratios hne
  obtain ⟨vi, hvok, hvi⟩ :=
    npArgExt_ok (fun x m => fpLtB x m || fpIsNan x) fpIsNan sim.volatilities hvne
  refine ⟨{ max_sharpe := mkEntry sim tickers mi
            min_volatility := mkEntry sim tickers vi }, ?_, ?_, ?_⟩
  · simp only [find_optimal_portfolios, findOptimalCore, hmok, hvok]
    rfl
  · exact mkEntry_weights_length sim tickers mi nA (by omega) hrow hnd
  · exact mkEntry_weights_length sim tickers vi nA (by omega) hrow hnd

/-- Witness for C10 (amended) at a concrete distinct ticker list. -/
theorem find_optimal_weights_length_witness :
    ∃ d, find_optimal_portfolios
        { returns := [FP.fin 0], volatilities := [FP.fin 1]
          sharpe_ratios := [FP.fin 1]
          all_weights := [[FP.fin 1, FP.fin 1]] }
        [] [] ["A", "B"] (FP.fin 0) = Except.ok d ∧
      d.max_sharpe.weights.length = min (["A", "B"] : List String).length 2 ∧
      d.min_volatility.weights.length = min (["A", "B"] : List String).length 2 :=
  find_optimal_weights_length
    { returns := [FP.fin 0], volatilities := [FP.fin 1]
      sharpe_ratios := [FP.fin 1]
      all_weights := [[FP.fin 1, FP.fin 1]] }
    [] [] ["A", "B"] (FP.fin 0) 2 (by decide) (by decide) (by decide)
    (by decide) (by decide)

/-! ### Claims about the arithmetic pipeline -/

/-- C4: `calculate_portfolio_metrics` returns exactly the triple
`(dot(w, mu), sqrt of the full quadratic form w^T Sigma w including all
cross-asset covariance terms, (return - risk_free_rate) / volatility)`.
The model is a pure function, matching the source's absence of side
effects. -/
theorem calculate_portfolio_metrics_formula {n : ℕ}
    (weights annual_returns : Fin n → ℝ)
    (cov_matrix : Matrix (Fin n) (Fin n) ℝ) (risk_free_rate : ℝ) :
    calculate_portfolio_metrics weights annual_returns cov_matrix
        risk_free_rate =
      (∑ i, weights i * annual_returns i,
       Real.sqrt (∑ i, ∑ j, weights i * cov_matrix i j * weights j),
       ((∑ i, weights i * annual_returns i) - risk_free_rate) /
         Real.sqrt (∑ i, ∑ j, weights i * cov_matrix i j * weights j)) := by
  have hq : (∑ i, weights i * Matrix.mulVec cov_matrix weights i) =
      ∑ i, ∑ j, weights i * cov_matrix i j * weights j := by
    simp [Matrix.mulVec, Matrix.dotProduct, Finset.mul_sum, mul_assoc]
  simp only [calculate_portfolio_metrics, Matrix.dotProduct, hq]

/-- C5: raw draws that are non-negative with a positive sum normalise to a
weight vector with non-negative components summing to 1 (hence within the
1e-9 tolerance), and consequently every weight vector stored in the
simulation cloud is a valid allocation. -/
theorem generate_random_weights_valid {n : ℕ} (hn : 0 < n)
    (draws : ℕ → Fin n → ℝ)
    (hnonneg : ∀ s i, 0 ≤ draws s i) (hpos : ∀ s, 0 < ∑ j, draws s j)
    (annual_returns : Fin n → ℝ) (cov_matrix : Matrix (Fin n) (Fin n) ℝ)
    (n_simulations : ℕ) (risk_free_rate : ℝ) :
    (∀ s, (∀ i, 0 ≤ generate_random_weights n (draws s) i) ∧
      |(∑ i, generate_random_weights n (draws s) i) - 1| ≤ 1e-9) ∧
    (∀ row ∈ (run_monte_carlo_simulation annual_returns cov_matrix
        n_simulations risk_free_rate draws).all_weights,
      (∀ x ∈ row, 0 ≤ x) ∧ |row.sum - 1| ≤ 1e-9) := by
  have hmain : ∀ s, (∀ i, 0 ≤ generate_random_weights n (draws s) i) ∧
      (∑ i, generate_random_weights n (draws s) i) = 1 := by
    intro s
    constructor
    · intro i
      exact div_nonneg (hnonneg s i) (le_of_lt (hpos s))
    · show (∑ i, draws s i / ∑ j, draws s j) = 1
      rw [← Finset.sum_div, div_self (ne_of_gt (hpos s))]
  constructor
  · intro s
    refine ⟨(hmain s).1, ?_⟩
    rw [(hmain s).2]
    norm_num
  · intro row hrow
    simp only [run_monte_carlo_simulation] at hrow
    obtain ⟨i, hi, rfl⟩ := List.mem_map.mp hrow
    constructor
    · intro x hx
      obtain ⟨j, hj⟩ := Set.mem_range.mp ((List.mem_ofFn _ _).mp hx)
      rw [← hj]
      exact (hmain i).1 j
    · rw [List.sum_ofFn, (hmain i).2]
      norm_num

/-- Witness for C5 at the concrete raw draw `(1/2, 1/4)`. -/
theorem generate_random_weights_valid_witness :
    (∀ s, (∀ i, 0 ≤ generate_random_weights 2
        ((fun _ : ℕ => ![(1 : ℝ)/2, 1/4]) s) i) ∧
      |(∑ i, generate_random_weights 2 ((fun _ : ℕ => ![(1 : ℝ)/2, 1/4]) s) i)
        - 1| ≤ 1e-9) ∧
    (∀ row ∈ (run_monte_carlo_simulation (fun _ => (0 : ℝ))
        (fun _ _ => (0 : ℝ)) 1 0 (fun _ : ℕ => ![(1 : ℝ)/2, 1/4])).all_weights,
      (∀ x ∈ row, 0 ≤ x) ∧ |row.sum - 1| ≤ 1e-9) :=
  generate_random_weights_valid (by norm_num) (fun _ : ℕ => ![(1 : ℝ)/2, 1/4])
    (by intro s i
        fin_cases i <;> norm_num)
    (by intro s
        rw [Fin.sum_univ_two]
        norm_num)
    (fun _ => 0) (fun _ _ => 0) 1 0

/-- C8: for a daily log-return frame with at least 2 rows,
`calculate_annual_metrics` returns the per-asset mean times `trading_days`
and the sample covariance (errors measured against the per-column mean over
the same shared rows, denominator `T - 1`) times `trading_days`, and the
covariance matrix is symmetric. -/
theorem calculate_annual_metrics_spec (T k : ℕ) (returns : Fin T → Fin k → ℝ)
    (trading_days : ℕ) (hT : 2 ≤ T) :
    (∀ j, (calculate_annual_metrics T k returns trading_days).1 j =
      ((∑ t, returns t j) / T) * trading_days) ∧
    (∀ j j', (calculate_annual_metrics T k returns trading_days).2.1 j j' =
      ((∑ t, (returns t j - (∑ s, returns s j) / T) *
          (returns t j' - (∑ s, returns s j') / T)) / ((T : ℝ) - 1)) *
        trading_days) ∧
    (∀ j j', (calculate_annual_metrics T k returns trading_days).2.1 j j' =
      (calculate_annual_metrics T k returns trading_days).2.1 j' j) := by
  refine ⟨fun j => rfl, fun j j' => rfl, fun j j' => ?_⟩
  show dfCov T k returns j j' * trading_days = dfCov T k returns j' j * trading_days
  have hsymm : dfCov T k returns j j' = dfCov T k returns j' j := by
    unfold dfCov
    congr 1
    exact Finset.sum_congr rfl fun t _ => mul_comm _ _
  rw [hsymm]

/-- Witness for C8 at a concrete 2-row, 1-asset return frame. -/
theorem calculate_annual_metrics_spec_witness :
    (∀ j, (calculate_annual_metrics 2 1 (fun (_ : Fin 2) (_ : Fin 1) => (0 : ℝ)) 252).1 j =
      ((∑ t, (fun (_ : Fin 2) (_ : Fin 1) => (0 : ℝ)) t j) / 2) * 252) ∧
    (∀ j j', (calculate_annual_metrics 2 1 (fun (_ : Fin 2) (_ : Fin 1) => (0 : ℝ)) 252).2.1 j j' =
      ((∑ t, ((fun (_ : Fin 2) (_ : Fin 1) => (0 : ℝ)) t j - (∑ s, (fun (_ : Fin 2) (_ : Fin 1) => (0 : ℝ)) s j) / 2) *
          ((fun (_ : Fin 2) (_ : Fin 1) => (0 : ℝ)) t j' - (∑ s, (fun (_ : Fin 2) (_ : Fin 1) => (0 : ℝ)) s j') / 2)) /
          ((2 : ℝ) - 1)) * 252) ∧
    (∀ j j', (calculate_annual_metrics 2 1 (fun (_ : Fin 2) (_ : Fin 1) => (0 : ℝ)) 252).2.1 j j' =
      (calculate_annual_metrics 2 1 (fun (_ : Fin 2) (_ : Fin 1) => (0 : ℝ)) 252).2.1 j' j) :=
  calculate_annual_metrics_spec 2 1 (fun (_ : Fin 2) (_ : Fin 1) => 0) 252 (by norm_num)

/-- C6 (amended): the sampler has no random-source parameter; it reads the
process-wide numpy RNG.  Its output is a deterministic function of the RNG
state at call time: two runs whose streams agree on the consumed segment
(positions `pos` to `pos + n_simulations * n`) produce identical clouds and
identical final states.  This is what re-seeding the global RNG before each
invocation recovers. -/
theorem run_monte_carlo_deterministic_in_state {n : ℕ} (u₁ u₂ : ℕ → ℝ)
    (pos : ℕ) (annual_returns : Fin n → ℝ)
    (cov_matrix : Matrix (Fin n) (Fin n) ℝ) (n_simulations : ℕ)
    (risk_free_rate : ℝ)
    (hagree : ∀ t, pos ≤ t → t < pos + n_simulations * n → u₁ t = u₂ t) :
    run_monte_carlo_simulation_global u₁ pos annual_returns cov_matrix
        n_simulations risk_free_rate =
      run_monte_carlo_simulation_global u₂ pos annual_returns cov_matrix
        n_simulations risk_free_rate := by
  have hdraw : ∀ i, i < n_simulations →
      (fun j : Fin n => u₁ (pos + i * n + j.val)) =
        (fun j : Fin n => u₂ (pos + i * n + j.val)) := by
    intro i hi
    funext j
    apply hagree
    · omega
    · have hj : j.val < n := j.isLt
      have h1 : i * n + j.val < (i + 1) * n := by
        rw [add_mul, one_mul]
        omega
      have h2 : (i + 1) * n ≤ n_simulations * n := Nat.mul_le_mul_right n hi
      omega
  have hsim : run_monte_carlo_simulation annual_returns cov_matrix
      n_simulations risk_free_rate (fun i j => u₁ (pos + i * n + j.val)) =
      run_monte_carlo_simulation annual_returns cov_matrix
        n_simulations risk_free_rate (fun i j => u₂ (pos + i * n + j.val)) := by
    simp only [run_monte_carlo_simulation, SimulationResults.mk.injEq]
    refine ⟨?_, ?_, ?_, ?_⟩ <;>
      · apply List.map_congr_left
        intro i hi
        rw [hdraw i (List.mem_range.mp hi)]
  show (run_monte_carlo_simulation annual_returns cov_matrix n_simulations
      risk_free_rate (fun i j => u₁ (pos + i * n + j.val)),
    pos + n_simulations * n) = _
  rw [hsim]
  rfl

/-- Witness for C6 (amended): two streams that agree on the consumed
positions but differ elsewhere give identical results. -/
theorem run_monte_carlo_deterministic_in_state_witness :
    run_monte_carlo_simulation_global (fun _ => (1 : ℝ)) 0
        (fun _ : Fin 1 => (0 : ℝ)) (fun _ _ => (0 : ℝ)) 1 0 =
      run_monte_carlo_simulation_global
        (fun t => if t = 0 then (1 : ℝ) else 2) 0
        (fun _ : Fin 1 => (0 : ℝ)) (fun _ _ => (0 : ℝ)) 1 0 :=
  run_monte_carlo_deterministic_in_state (fun _ => (1 : ℝ))
    (fun t => if t = 0 then (1 : ℝ) else 2) 0 (fun _ => 0) (fun _ _ => 0) 1 0
    (by intro t h1 h2
        have ht : t = 0 := by omega
        subst ht
        norm_num)

/-- C6 fails as stated: `run_monte_carlo_simulation` has no seed/rng
parameter; it consumes the global numpy RNG, whose state advances across
calls.  With the stream `t`, two back-to-back invocations with identical
inputs (the second starting at the state the first left behind) produce
different clouds. -/
theorem run_monte_carlo_sequential_calls_differ_counterexample :
    (run_monte_carlo_simulation_global (fun t => (t : ℝ)) 0
        (![(1 : ℝ), 0]) (fun _ _ => (0 : ℝ)) 1 0).1 ≠
      (run_monte_carlo_simulation_global (fun t => (t : ℝ))
        ((run_monte_carlo_simulation_global (fun t => (t : ℝ)) 0
          (![(1 : ℝ), 0]) (fun _ _ => (0 : ℝ)) 1 0).2)
        (![(1 : ℝ), 0]) (fun _ _ => (0 : ℝ)) 1 0).1 := by
  intro h
  have h2 := congrArg SimulationResults.returns h
  simp only [run_monte_carlo_simulation_global, run_monte_carlo_simulation,
    List.range_succ, List.range_zero, List.nil_append, List.map_cons,
    List.map_nil, calculate_portfolio_metrics, generate_random_weights,
    Matrix.dotProduct, List.cons.injEq, and_true] at h2
  rw [Fin.sum_univ_two, Fin.sum_univ_two, Fin.sum_univ_two, Fin.sum_univ_two]
    at h2
  norm_num [Matrix.cons_val_zero, Matrix.cons_val_one, Matrix.head_cons] at h2

/-- Reading a mapped range at an in-range index. -/
theorem getD_map_range {β : Type} (f : ℕ → β) (nS idx : ℕ) (d : β)
    (hidx : idx < nS) : ((List.range nS).map f).getD idx d = f idx := by
  rw [List.getD_eq_getElem?_getD, List.getElem?_map, List.getElem?_range hidx]
  rfl

/-- Round-trip at one cloud index: the candidate dictionary built by the
selector at an in-range index of the simulated cloud stores exactly the
metrics that `calculate_portfolio_metrics` recomputes from its stored
weight values. -/
theorem mkEntry_round_trip {n : ℕ} (annual_returns : Fin n → ℝ)
    (cov_matrix : Matrix (Fin n) (Fin n) ℝ) (tickers : List String)
    (n_simulations : ℕ) (risk_free_rate : ℝ) (draws : ℕ → Fin n → ℝ)
    (idx : ℕ) (hidx : idx < n_simulations) (hlen : tickers.length = n)
    (hnd : tickers.Nodup) :
    calculate_portfolio_metrics
        (fun i => ((mkEntry (run_monte_carlo_simulation annual_returns
            cov_matrix n_simulations risk_free_rate draws) tickers
            idx).weights.map Prod.snd).getD i 0)
        annual_returns cov_matrix risk_free_rate =
      ((mkEntry (run_monte_carlo_simulation annual_returns cov_matrix
          n_simulations risk_free_rate draws) tickers idx).ret,
       (mkEntry (run_monte_carlo_simulation annual_returns cov_matrix
          n_simulations risk_free_rate draws) tickers idx).volatility,
       (mkEntry (run_monte_carlo_simulation annual_returns cov_matrix
          n_simulations risk_free_rate draws) tickers idx).sharpe) := by
  have hwrow : (run_monte_carlo_simulation annual_returns cov_matrix
      n_simulations risk_free_rate draws).all_weights.getD idx [] =
      List.ofFn (generate_random_weights n (draws idx)) :=
    getD_map_range (fun i => List.ofFn (generate_random_weights n (draws i)))
      n_simulations idx [] hidx
  have hkeys : ((tickers.zip (List.ofFn (generate_random_weights n
      (draws idx)))).map Prod.fst).Nodup := by
    rw [map_fst_zip_take]
    exact hnd.sublist (List.take_sublist _ _)
  have hmapsnd : ((mkEntry (run_monte_carlo_simulation annual_returns
      cov_matrix n_simulations risk_free_rate draws) tickers
      idx).weights.map Prod.snd) =
      List.ofFn (generate_random_weights n (draws idx)) := by
    show (pyDict (tickers.zip ((run_monte_carlo_simulation annual_returns
      cov_matrix n_simulations risk_free_rate draws).all_weights.getD idx
      []))).map Prod.snd = _
    rw [hwrow, pyDict_eq_self _ hkeys, map_snd_zip_take, hlen]
    exact List.take_of_length_le (le_of_eq (List.length_ofFn _))
  have hW : (fun i : Fin n => ((mkEntry (run_monte_carlo_simulation
      annual_returns cov_matrix n_simulations risk_free_rate draws) tickers
      idx).weights.map Prod.snd).getD i 0) =
      generate_random_weights n (draws idx) := by
    funext i
    rw [hmapsnd, List.getD_eq_getElem?_getD, List.getElem?_ofFn]
    simp [List.ofFnNthVal, i.isLt]
  have hret : (mkEntry (run_monte_carlo_simulation annual_returns cov_matrix
      n_simulations risk_free_rate draws) tickers idx).ret =
      (calculate_portfolio_metrics (generate_random_weights n (draws idx))
        annual_returns cov_matrix risk_free_rate).1 :=
    getD_map_range (fun i => (calculate_portfolio_metrics
      (generate_random_weights n (draws i)) annual_returns cov_matrix
      risk_free_rate).1) n_simulations idx 0 hidx
  have hvol : (mkEntry (run_monte_carlo_simulation annual_returns cov_matrix
      n_simulations risk_free_rate draws) tickers idx).volatility =
      (calculate_portfolio_metrics (generate_random_weights n (draws idx))
        annual_returns cov_matrix risk_free_rate).2.1 :=
    getD_map_range (fun i => (calculate_portfolio_metrics
      (generate_random_weights n (draws i)) annual_returns cov_matrix
      risk_free_rate).2.1) n_simulations idx 0 hidx
  have hsh : (mkEntry (run_monte_carlo_simulation annual_returns cov_matrix
      n_simulations risk_free_rate draws) tickers idx).sharpe =
      (calculate_portfolio_metrics (generate_random_weights n (draws idx))
        annual_returns cov_matrix risk_free_rate).2.2 :=
    getD_map_range (fun i => (calculate_portfolio_metrics
      (generate_random_weights n (draws i)) annual_returns cov_matrix
      risk_free_rate).2.2) n_simulations idx 0 hidx
  rw [hW, hret, hvol, hsh]

/-- C7: round-trip.  For every run of `optimize_portfolio` over at least
one simulation (with a well-formed ticker list: pairwise distinct, one
ticker per asset), recomputing return, volatility and sharpe via
`calculate_portfolio_metrics` from the weight values stored on each
returned portfolio reproduces exactly the `return`, `volatility` and
`sharpe` values stored on the result — for `max_sharpe` and
`min_volatility` alike. -/
theorem optimize_portfolio_round_trip {n : ℕ} (annual_returns : Fin n → ℝ)
    (cov_matrix : Matrix (Fin n) (Fin n) ℝ) (tickers : List String)
    (n_simulations : ℕ) (risk_free_rate : ℝ) (draws : ℕ → Fin n → ℝ)
    (hpos : 0 < n_simulations) (hlen : tickers.length = n)
    (hnd : tickers.Nodup) :
    ∃ d, (optimize_portfolio annual_returns cov_matrix tickers n_simulations
        risk_free_rate draws).2 = Except.ok d ∧
      calculate_portfolio_metrics
          (fun i => (d.max_sharpe.weights.map Prod.snd).getD i 0)
          annual_returns cov_matrix risk_free_rate =
        (d.max_sharpe.ret, d.max_sharpe.volatility, d.max_sharpe.sharpe) ∧
      calculate_portfolio_metrics
          (fun i => (d.min_volatility.weights.map Prod.snd).getD i 0)
          annual_returns cov_matrix risk_free_rate =
        (d.min_volatility.ret, d.min_volatility.volatility,
          d.min_volatility.sharpe) := by
  have hslen : (run_monte_carlo_simulation annual_returns cov_matrix
      n_simulations risk_free_rate draws).sharpe_ratios.length =
      n_simulations := by
    simp [run_monte_carlo_simulation]
  have hvlen : (run_monte_carlo_simulation annual_returns cov_matrix
      n_simulations risk_free_rate draws).volatilities.length =
      n_simulations := by
    simp [run_monte_carlo_simulation]
  have hne : (run_monte_carlo_simulation annual_returns cov_matrix
      n_simulations risk_free_rate draws).sharpe_ratios ≠ [] :=
    List.ne_nil_of_length_pos (by omega)
  have hvne : (run_monte_carlo_simulation annual_returns cov_matrix
      n_simulations risk_free_rate draws).volatilities ≠ [] :=
    List.ne_nil_of_length_pos (by omega)
  obtain ⟨mi, hmok, hmi⟩ :=
    npArgExt_ok (fun x m : ℝ => decide (m < x) || false) (fun _ : ℝ => false)
      _ hne
  obtain ⟨vi, hvok, hvi⟩ :=
    npArgExt_ok (fun x m : ℝ => decide (x < m) || false) (fun _ : ℝ => false)
      _ hvne
  have hmi' : mi < n_simulations := by omega
  have hvi' : vi < n_simulations := by omega
  refine ⟨{ max_sharpe := mkEntry (run_monte_carlo_simulation annual_returns
              cov_matrix n_simulations risk_free_rate draws) tickers mi
            min_volatility := mkEntry (run_monte_carlo_simulation
              annual_returns cov_matrix n_simulations risk_free_rate draws)
              tickers vi }, ?_,
    mkEntry_round_trip annual_returns cov_matrix tickers n_simulations
      risk_free_rate draws mi hmi' hlen hnd,
    mkEntry_round_trip annual_returns cov_matrix tickers n_simulations
      risk_free_rate draws vi hvi' hlen hnd⟩
  show find_optimal_portfolios_real (run_monte_carlo_simulation
      annual_returns cov_matrix n_simulations risk_free_rate draws)
      annual_returns cov_matrix tickers risk_free_rate = _
  simp only [find_optimal_portfolios_real, findOptimalCore, hmok, hvok]
  rfl

/-- Witness for C7 at a concrete one-asset, one-simulation run. -/
theorem optimize_portfolio_round_trip_witness :
    ∃ d, (optimize_portfolio (fun _ : Fin 1 => (1 : ℝ)) (fun _ _ => (0 : ℝ))
        ["A"] 1 0 (fun _ _ => (1 : ℝ))).2 = Except.ok d ∧
      calculate_portfolio_metrics
          (fun i => (d.max_sharpe.weights.map Prod.snd).getD i 0)
          (fun _ : Fin 1 => (1 : ℝ)) (fun _ _ => (0 : ℝ)) 0 =
        (d.max_sharpe.ret, d.max_sharpe.volatility, d.max_sharpe.sharpe) ∧
      calculate_portfolio_metrics
          (fun i => (d.min_volatility.weights.map Prod.snd).getD i 0)
          (fun _ : Fin 1 => (1 : ℝ)) (fun _ _ => (0 : ℝ)) 0 =
        (d.min_volatility.ret, d.min_volatility.volatility,
          d.min_volatility.sharpe) :=
  optimize_portfolio_round_trip (fun _ : Fin 1 => (1 : ℝ)) (fun _ _ => 0)
    ["A"] 1 0 (fun _ _ => 1) (by norm_num) rfl (by simp)
